import Mathlib

/-!
Verification development for the PiChainAnalysis repository.

The definitions below are a shallow embedding of the Python sources:

* `src/analysis/peeling_chain_analyzer.py` — the peeling-chain tracer
  (`PeelingChainAnalyzer.analyze` and its helpers);
* `src/analysis/fan_out_analyzer.py` — the Gini-based uniformity score
  (`FanOutAnalyzer._analyze_distribution_uniformity`);
* `src/core/manager.py` — the source-fallback orchestrator (`Manager`);
* `src/connectors/electrs_connector.py` — the Electrum spend lookups
  (`get_spending_tx` and `batch_get_spending_txs`).

Numeric values (Python floats) are modelled as rationals `ℚ`; external
data sources (Bitcoin Core RPC, Neo4j, Electrs, the public HTTP API) are
modelled as environment records of total functions returning `Option`,
`none` standing for the Python `None` that every connector returns on
failure.  The interactive yes/no prompt is an oracle indexed by the
number of prompts issued so far.
-/

namespace PiChain

/-! ## Peeling-chain tracer (`src/analysis/peeling_chain_analyzer.py`) -/

/-- One transaction input in the normalized format produced by
`_get_transaction_from_neo4j` (lines 121-129): a source txid, a source
output index, and the input value.  `value = none` models a raw
Bitcoin-node transaction (fallback path, line 302) whose `vin` entries
carry no `value` key, which triggers the per-input lookup of
`_get_total_input_value` (lines 171-188). -/
structure PVin where
  txid : String
  vout : Nat
  value : Option ℚ
deriving DecidableEq, Repr

/-- One transaction output: index `n` and value (lines 131-139 always
populate both fields, as does Bitcoin Core `getrawtransaction`). -/
structure PVout where
  n : Nat
  value : ℚ
deriving DecidableEq, Repr

/-- A transaction in the normalized format consumed by
`PeelingChainAnalyzer.analyze` (the `formatted_tx` of lines 114-139). -/
structure PTx where
  txid : String
  time : Option Int
  vin : List PVin
  vout : List PVout
deriving DecidableEq, Repr

/-- One entry of `chain_data` appended by `analyze` (lines 324-331). -/
structure PeelStep where
  tx_hash : String
  input_value : ℚ
  peeled_value : ℚ
  change_value : ℚ
  peeled_percentage : ℚ
  time : Option Int
deriving DecidableEq, Repr

/-- The data sources behind the tracer.  `neo4jTx` is the result of
`_get_transaction_from_neo4j`, `btcTx` the result of
`btc_connector.get_transaction`, `neo4jSpend` the `spending_tx_hash`
returned by `find_spending_transaction`, `electrsSpend` the result of
`electrs_connector.get_spending_tx`.  Each returns `none` where the
Python code receives `None`. -/
structure PEnv where
  neo4jTx : String → Option PTx
  btcTx : String → Option PTx
  neo4jSpend : String → Nat → Option String
  electrsSpend : String → Nat → Option String

/-- The hash of 64 zero characters skipped as coinbase by
`_get_total_input_value` (line 177). -/
def coinbaseHash : String :=
  "0000000000000000000000000000000000000000000000000000000000000000"

/-- Embedding of `PeelingChainAnalyzer._get_total_input_value`
(lines 159-190).  The transactions produced by
`_get_transaction_from_neo4j` and by Bitcoin Core never carry an
`input_value_total` key, so the early-return of lines 164-165 is dead in
this model and omitted.  For each input: if a `value` is present it is
added (line 170); otherwise the source transaction is fetched from the
Bitcoin node and the referenced output value added when the index is in
range (lines 180-185); empty or all-zero source hashes are skipped
(line 177); any failure contributes nothing (lines 186-188). -/
def getTotalInputValue (env : PEnv) (tx : PTx) : ℚ :=
  tx.vin.foldl
    (fun acc v =>
      match v.value with
      | some x => acc + x
      | none =>
        if v.txid = "" ∨ v.txid = coinbaseHash then acc
        else
          match env.btcTx v.txid with
          | some src =>
            match src.vout.get? v.vout with
            | some o => acc + o.value
            | none => acc
          | none => acc)
    0

/-- Embedding of `PeelingChainAnalyzer._identify_peeling_outputs`
(lines 192-210): exactly two outputs are required (line 198 tests
`len(vouts) != 2`); the two outputs are sorted by value ascending with
a stable sort, the smaller becoming the peeled output and the larger
the change output. -/
def identifyPeelingOutputs (tx : PTx) : Option (PVout × PVout) :=
  match tx.vout with
  | [a, b] => if b.value < a.value then some (b, a) else some (a, b)
  | _ => none

/-- Transaction resolution inside the walk: Neo4j first (line 296),
Bitcoin node as fallback (line 302). -/
def resolveTx (env : PEnv) (h : String) : Option PTx :=
  match env.neo4jTx h with
  | some tx => some tx
  | none => env.btcTx h

/-- Embedding of `_find_next_transaction_neo4j` (lines 147-157): the
recorded `spending_tx_hash` is returned only when truthy. -/
def findNextTransactionNeo4j (env : PEnv) (h : String) (idx : Nat) :
    Option String :=
  match env.neo4jSpend h idx with
  | some s => if s = "" then none else some s
  | none => none

/-- The iterative walk of `PeelingChainAnalyzer.analyze` (lines
286-353), as a fuel-indexed loop.  The returned Boolean is `true` when
the Python `while current_hash:` loop has actually terminated (a
`break` or `current_hash = None` was reached) within the given fuel and
`false` when the fuel ran out with the walk still going.  The loop body
mirrors the source: resolve the current hash (Neo4j, then the node;
lines 296-305), identify the peeled/change outputs (lines 307-310),
compute the total input value and the peeled percentage (lines
312-319), append a `PeelStep` (lines 324-331), then look up the
spender of the change output, Neo4j first and Electrs as fallback
(lines 334-350).  A falsy (empty) hash stops the walk exactly as the
Python truthiness tests do. -/
def analyzeLoop (env : PEnv) :
    Nat → Option String → List PeelStep → List PeelStep × Bool
  | 0, cur, acc => (acc, cur.isNone)
  | _ + 1, none, acc => (acc, true)
  | fuel + 1, some h, acc =>
    if h = "" then (acc, true)
    else
      match resolveTx env h with
      | none => (acc, true)
      | some tx =>
        match identifyPeelingOutputs tx with
        | none => (acc, true)
        | some (peeled, change) =>
          let total := getTotalInputValue env tx
          let pv := peeled.value
          let pct := if 0 < total then pv / total * 100 else 0
          let step : PeelStep := ⟨h, total, pv, change.value, pct, tx.time⟩
          let next1 := findNextTransactionNeo4j env h change.n
          let next2 :=
            match next1 with
            | some t => some t
            | none => env.electrsSpend h change.n
          let next :=
            match next2 with
            | some t => if t = "" then none else some t
            | none => none
          analyzeLoop env fuel next (acc ++ [step])

/-- Entry point of the trace: `analyze(start_hash)` starts the walk at
`start_hash` with an empty chain (lines 287-290).  The first component
is the `chain` list of the returned metrics dictionary (line 356), the
second records whether the loop terminated within the fuel. -/
def analyze (env : PEnv) (start : String) (fuel : Nat) :
    List PeelStep × Bool :=
  analyzeLoop env fuel (some start) []

/-! ## Percentile-based anomaly detection
(`PeelingChainAnalyzer._detect_anomalies`, lines 224-242) -/

/-- Insertion of a rational into a sorted list, ascending. -/
def insertSorted (a : ℚ) : List ℚ → List ℚ
  | [] => [a]
  | b :: l => if a ≤ b then a :: b :: l else b :: insertSorted a l

/-- Ascending sort of a list of rationals, as Python `sorted` /
NumPy internal sorting produce on plain numbers. -/
def sortAsc (l : List ℚ) : List ℚ :=
  l.foldr insertSorted []

/-- Embedding of `np.percentile(data, q)` with the default linear
interpolation: on the ascending-sorted data `a₀ … aₙ₋₁` the rank is
`pos = q·(n-1)/100`, and the result interpolates between the entries at
`⌊pos⌋` and `⌊pos⌋ + 1`. -/
def percentileNp (l : List ℚ) (q : ℚ) : ℚ :=
  let s := sortAsc l
  match s with
  | [] => 0
  | _ =>
    let n := s.length
    let pos := q * ((n : ℚ) - 1) / 100
    let i : Nat := (⌊pos⌋).toNat
    let frac := pos - (⌊pos⌋ : ℚ)
    match s.get? i, s.get? (i + 1) with
    | some a, some b => a + frac * (b - a)
    | some a, none => a
    | none, _ => 0

/-- The dictionary returned by `_detect_anomalies`: the positions of
the anomalous steps, their count, and the IQR bounds (absent in the
short-sequence branch of lines 226-227). -/
structure AnomalyReport where
  anomalies : List Nat
  anomaly_count : Nat
  bounds : Option (ℚ × ℚ)
deriving DecidableEq, Repr

/-- The list comprehension of line 235: the indices `i` (counting from
`start`) whose value falls outside `[lb, ub]`, in order. -/
def anomalousIndices (lb ub : ℚ) : Nat → List ℚ → List Nat
  | _, [] => []
  | i, p :: rest =>
    if p < lb ∨ ub < p then i :: anomalousIndices lb ub (i + 1) rest
    else anomalousIndices lb ub (i + 1) rest

/-- Embedding of `PeelingChainAnalyzer._detect_anomalies` (lines
224-242): fewer than 4 data points yield an empty report; otherwise
Q1/Q3 are the 25th/75th percentiles, and every index whose value lies
outside `[Q1 - 1.5·IQR, Q3 + 1.5·IQR]` is flagged. -/
def detectAnomalies (percentages : List ℚ) : AnomalyReport :=
  if percentages.length < 4 then ⟨[], 0, none⟩
  else
    let q1 := percentileNp percentages 25
    let q3 := percentileNp percentages 75
    let iqr := q3 - q1
    let lowerBound := q1 - 3 / 2 * iqr
    let upperBound := q3 + 3 / 2 * iqr
    let anomalies := anomalousIndices lowerBound upperBound 0 percentages
    ⟨anomalies, anomalies.length, some (lowerBound, upperBound)⟩

/-! ## Gini-based uniformity
(`FanOutAnalyzer._analyze_distribution_uniformity`, lines 307-337) -/

/-- Outcome of `_analyze_distribution_uniformity`.  `insufficient` is
the sentinel dictionary returned for sequences of length below 2
(line 312); `divisionByZero` records that the Python expression of line
318 raises an uncaught `ZeroDivisionError` when the denominator
`n * sum(sorted_values)` is zero; `ok` carries the Gini coefficient and
the uniformity score of the normal path. -/
inductive UniformityResult
  | insufficient
  | divisionByZero
  | ok (gini : ℚ) (score : ℚ)
deriving DecidableEq, Repr

/-- The generator expression `sum((i + 1) * v for i, v in
enumerate(sorted_values))` of line 318, with `i` counting from the
given start index. -/
def weightedIndexSum : Nat → List ℚ → ℚ
  | _, [] => 0
  | i, v :: rest => ((i : ℚ) + 1) * v + weightedIndexSum (i + 1) rest

/-- Embedding of `FanOutAnalyzer._analyze_distribution_uniformity`
(lines 307-337): sequences shorter than 2 get the sentinel; otherwise
the values are sorted ascending and
`gini = (2·Σ(i+1)·vᵢ)/(n·Σv) - (n+1)/n`,
`uniformity = (1 - gini)·100`.  When the denominator `n·Σv` is zero the
Python division raises `ZeroDivisionError`; the model returns the
explicit `divisionByZero` marker in that case. -/
def analyzeDistributionUniformity (values : List ℚ) : UniformityResult :=
  if values.length < 2 then .insufficient
  else
    let sorted := sortAsc values
    let n : ℚ := (sorted.length : ℚ)
    let total := sorted.sum
    let weighted := weightedIndexSum 0 sorted
    if n * total = 0 then .divisionByZero
    else
      let gini := 2 * weighted / (n * total) - (n + 1) / n
      .ok gini ((1 - gini) * 100)

/-! ## Concrete fixtures for the tracer claims -/

/-- A transaction whose change output (index 1) is spent by the
transaction itself: the self-referential graph of claim C1. -/
def loopTx : PTx := ⟨"a", none, [⟨"", 0, some 2⟩], [⟨0, 1⟩, ⟨1, 1⟩]⟩

/-- The peel step the tracer builds for `loopTx`: total input 2, peeled
and change value 1 each, peeled percentage 50. -/
def loopStep : PeelStep := ⟨"a", 2, 1, 1, 50, none⟩

/-- A graph holding only `loopTx`, whose change output is recorded in
Neo4j as spent by `loopTx` itself. -/
def loopEnv : PEnv :=
  { neo4jTx := fun h => if h = "a" then some loopTx else none
    btcTx := fun _ => none
    neo4jSpend := fun h i => if h = "a" ∧ i = 1 then some "a" else none
    electrsSpend := fun _ _ => none }

/-- A resolvable transaction with three outputs (claim C2). -/
def threeOutTx : PTx := ⟨"c", none, [⟨"", 0, some 6⟩], [⟨0, 1⟩, ⟨1, 2⟩, ⟨2, 3⟩]⟩

/-- A graph holding only `threeOutTx`. -/
def threeOutEnv : PEnv :=
  { neo4jTx := fun h => if h = "c" then some threeOutTx else none
    btcTx := fun _ => none
    neo4jSpend := fun _ _ => none
    electrsSpend := fun _ _ => none }

/-- A two-output transaction whose outputs arrive change-first
(values 5 then 3), exercising the ascending sort of
`_identify_peeling_outputs`. -/
def twoOutTx : PTx := ⟨"d", none, [], [⟨0, 5⟩, ⟨1, 3⟩]⟩

/-- A transaction whose output values (5 and 10) exceed its total input
value (1): all values non-negative, total input positive, yet the
peeled percentage is 500 (claim C5). -/
def overPeelTx : PTx := ⟨"b", none, [⟨"", 0, some 1⟩], [⟨0, 5⟩, ⟨1, 10⟩]⟩

/-- A graph holding only `overPeelTx`. -/
def overPeelEnv : PEnv :=
  { neo4jTx := fun h => if h = "b" then some overPeelTx else none
    btcTx := fun _ => none
    neo4jSpend := fun _ _ => none
    electrsSpend := fun _ _ => none }

/-! ## Electrum spend lookups (`src/connectors/electrs_connector.py`) -/

/-- One output of the transaction fetched from the Bitcoin node: only
its locking script matters to the spend lookup (line 149 reads
`vout[vout_index].scriptPubKey.hex`). -/
structure EVout where
  scriptPubKeyHex : String
deriving DecidableEq, Repr

/-- A transaction as returned by `btc_connector.get_transaction` for
the purposes of the spend lookup. -/
structure ETx where
  vout : List EVout
deriving DecidableEq, Repr

/-- One entry of a scripthash history
(`blockchain.scripthash.get_history`): the code reads only `tx_hash`. -/
structure HistItem where
  tx_hash : String
deriving DecidableEq, Repr

/-- One input of a candidate spending transaction as returned by
`blockchain.transaction.get`; the fields are read with `.get`, hence
optional (lines 180-181 and 259-260). -/
structure SVin where
  txid : Option String
  vout : Option Nat
deriving DecidableEq, Repr

/-- A candidate spending transaction: the code reads only `vin`. -/
structure STx where
  vin : List SVin
deriving DecidableEq, Repr

/-- The deterministic world behind the Electrum lookups.  `btcGetTx`
models `btc_connector.get_transaction`; `scriptHash` the pure
`_calculate_scripthash` (SHA-256 of the script bytes, byte-reversed),
kept opaque since both modes apply the same function; `subscribeOk sh`
whether `blockchain.scripthash.subscribe` returns a non-`None` result;
`history sh` the result of `blockchain.scripthash.get_history` (`none`
for a failed call); `txDetail` the result of
`blockchain.transaction.get` with `verbose=true`. -/
structure EEnv where
  btcGetTx : String → Option ETx
  scriptHash : String → String
  subscribeOk : String → Bool
  history : String → Option (List HistItem)
  txDetail : String → Option STx

/-- The history scan shared verbatim by both modes (lines 162-186 of
`get_spending_tx` and lines 248-265 of `batch_get_spending_txs`): skip
the outpoint's own creating transaction, fetch each remaining candidate
(skipping ones whose details cannot be fetched), and return the first
whose inputs contain the outpoint. -/
def searchSpenderInHistory (env : EEnv) (txid : String) (vidx : Nat) :
    List HistItem → Option String
  | [] => none
  | item :: rest =>
    if item.tx_hash = txid then searchSpenderInHistory env txid vidx rest
    else
      match env.txDetail item.tx_hash with
      | none => searchSpenderInHistory env txid vidx rest
      | some stx =>
        if stx.vin.any (fun v => v.txid == some txid && v.vout == some vidx) then
          some item.tx_hash
        else searchSpenderInHistory env txid vidx rest

/-- Embedding of `_scripthash_query` (lines 89-132): subscribe, fetch
the history, unsubscribe (the unsubscribe result is ignored).  A failed
subscription aborts the query (lines 110-112) and returns `None`. -/
def scripthashQuery (env : EEnv) (sh : String) : Option (List HistItem) :=
  if env.subscribeOk sh then env.history sh else none

/-- Embedding of `ElectrsConnector.get_spending_tx` (lines 134-190),
the fresh-connection-per-call mode: fetch the outpoint's creating
transaction, compute the scripthash of the referenced output's script,
run the subscribe/get-history/unsubscribe triad, and scan the history;
a missing transaction, out-of-range index, failed query or empty
history all yield `None` (lines 144-146 and 154-157). -/
def get_spending_tx (env : EEnv) (txid : String) (vidx : Nat) : Option String :=
  match env.btcGetTx txid with
  | none => none
  | some raw =>
    match raw.vout.get? vidx with
    | none => none
    | some o =>
      let sh := env.scriptHash o.scriptPubKeyHex
      match scripthashQuery env sh with
      | none => none
      | some hist =>
        if hist = [] then none
        else searchSpenderInHistory env txid vidx hist

/-- The per-outpoint body of `batch_get_spending_txs` (lines 217-269),
the connection-reuse mode: identical to the fresh mode except that the
subscribe call's result is discarded (lines 231-233 never test it) —
the history is fetched and scanned regardless of the subscription
outcome. -/
def batchLookupOne (env : EEnv) (txid : String) (vidx : Nat) : Option String :=
  match env.btcGetTx txid with
  | none => none
  | some raw =>
    match raw.vout.get? vidx with
    | none => none
    | some o =>
      let sh := env.scriptHash o.scriptPubKeyHex
      match env.history sh with
      | none => none
      | some hist =>
        if hist = [] then none
        else searchSpenderInHistory env txid vidx hist

/-- Embedding of `ElectrsConnector.batch_get_spending_txs` (lines
192-280): the per-outpoint entries of the returned dictionary, in input
order. -/
def batch_get_spending_txs (env : EEnv) (utxos : List (String × Nat)) :
    List ((String × Nat) × Option String) :=
  utxos.map (fun u => (u, batchLookupOne env u.1 u.2))

/-- A world where the subscription for the relevant scripthash fails
while its history is available and contains the spender: the two
lookup modes disagree on it (claim C9). -/
def subFailEnv : EEnv :=
  { btcGetTx := fun h => if h = "t" then some ⟨[⟨"s"⟩]⟩ else none
    scriptHash := fun _ => "sh"
    subscribeOk := fun _ => false
    history := fun sh => if sh = "sh" then some [⟨"u"⟩] else none
    txDetail := fun h => if h = "u" then some ⟨[⟨some "t", some 0⟩]⟩ else none }

/-- The same world with the subscription succeeding: both modes find
the spender. -/
def subOkEnv : EEnv :=
  { subFailEnv with subscribeOk := fun _ => true }

/-! ## The source-fallback orchestrator (`src/core/manager.py`)

The `Manager` owns the mutable fallback state (`using_public_api`,
`public_api_steps`) and issues calls to the Bitcoin node, Electrs, the
public HTTP API, Neo4j, and the interactive yes/no prompt.  The
embedding threads an explicit state and records every externally
visible action as an event, so that the claims about call ordering
(the health probe coming first) and about the public API never being
contacted without authorization can be stated over event traces. -/

/-- One input of a transaction as the `Manager` reads it: the coinbase
flag (line 268: `'coinbase' in vin or vin.get('is_coinbase')`), and the
optional source txid / output index (line 271). -/
structure MVin where
  coinbase : Bool
  txid : Option String
  vout : Option Nat
deriving DecidableEq, Repr

/-- One output: the `Manager` reads only its `value` (lines 192, 315). -/
structure MVout where
  value : ℚ
deriving DecidableEq, Repr

/-- A raw transaction as returned by the node or the public API. -/
structure MTx where
  txid : String
  blockhash : Option String
  vin : List MVin
  vout : List MVout
deriving DecidableEq, Repr

/-- The mutable `Manager` attributes (lines 15-16), plus a count of
prompts issued so far to index the user-answer oracle. -/
structure MState where
  usingPublicApi : Bool
  publicApiSteps : Nat
  askCount : Nat
deriving DecidableEq, Repr

/-- The state of a fresh `Manager` (lines 15-16): local node
authoritative, step counter zero. -/
def initMState : MState := ⟨false, 0, 0⟩

/-- Externally visible actions of the orchestrator.  `probe` is the
health-check attempt against the local node performed by
`_try_return_to_local_node` (checking `rpc_connection` and, when it is
live, calling `getblockchaininfo`), carrying its outcome;
`ask` is one interactive fallback prompt with the answer given;
`publicGet`, `publicHeight` and `publicSpend` are the three call sites
of the public API connector; `btcGet`, `btcHeight`, `electrsSpend` and
`neo4jStore` are the local-tier calls. -/
inductive MEvent
  | probe (ok : Bool)
  | ask (ans : Bool)
  | btcGet (h : String)
  | btcHeight (h : String)
  | electrsSpend (t : String) (i : Nat)
  | neo4jStore (h : String)
  | publicGet (h : String)
  | publicHeight (h : String)
  | publicSpend (t : String) (i : Nat)
deriving DecidableEq, Repr

/-- The calls that contact the lowest-trust public API tier. -/
def MEvent.isPublicApiCall : MEvent → Bool
  | .publicGet _ => true
  | .publicHeight _ => true
  | .publicSpend _ _ => true
  | _ => false

/-- The deterministic world behind the `Manager`: whether the RPC
connection object is live (`btc_connector.rpc_connection` truthy),
whether its `getblockchaininfo` probe succeeds, the four data sources,
and the user-answer oracle indexed by the number of prompts issued so
far (the interactive loop of `_ask_user_fallback_permission` reprompts
until a definite yes/no, modelled as the oracle's Boolean). -/
structure MEnv where
  rpcConnection : Bool
  chainInfoOk : Bool
  btcGetTx : String → Option MTx
  publicGetTx : String → Option MTx
  btcBlockHeight : String → Nat
  publicBlockHeight : String → Nat
  electrsSpender : String → Nat → Option String
  publicSpender : String → Nat → Option String
  userAnswer : Nat → Bool

/-- Result of one embedded `Manager` step: the returned value, the
updated state, and the events emitted, in order. -/
structure MRes (α : Type) where
  result : α
  state : MState
  events : List MEvent
deriving Repr

/-- Embedding of `Manager._try_return_to_local_node` (lines 58-83).
When the public API is in use and at least 5 steps were served by it,
the local node is probed: on a live connection with a successful
`getblockchaininfo` the manager returns to the local node and resets
the counter (lines 65-72); otherwise it stays on the public API but
still resets the counter (lines 73-82).  Outside that window nothing
happens (line 83). -/
def tryReturnToLocalNode (env : MEnv) (s : MState) : MRes Bool :=
  if s.usingPublicApi ∧ 5 ≤ s.publicApiSteps then
    if env.rpcConnection ∧ env.chainInfoOk then
      ⟨true, ⟨false, 0, s.askCount⟩, [.probe true]⟩
    else
      ⟨false, ⟨true, 0, s.askCount⟩, [.probe false]⟩
  else ⟨false, s, []⟩

/-- Embedding of `Manager._ask_user_fallback_permission` (lines
33-56): one prompt answered by the oracle. -/
def askUserFallbackPermission (env : MEnv) (s : MState) : MRes Bool :=
  let ans := env.userAnswer s.askCount
  ⟨ans, ⟨s.usingPublicApi, s.publicApiSteps, s.askCount + 1⟩, [.ask ans]⟩

/-- The source-transaction fetch for one input of `_process_inputs`
(lines 276-304): the current tier is queried first (lines 280-284); on
a local miss the user may authorize the public fallback (lines
287-295); the API step counter grows exactly when the public API
successfully served this input (lines 303-304, reached before the
index check of line 307). -/
def fetchInputSource (env : MEnv) (s : MState) (txh : String) :
    MRes (Option MTx) :=
  if s.usingPublicApi then
    match env.publicGetTx txh with
    | none => ⟨none, s, [.publicGet txh]⟩
    | some src =>
      ⟨some src, ⟨s.usingPublicApi, s.publicApiSteps + 1, s.askCount⟩, [.publicGet txh]⟩
  else
    match env.btcGetTx txh with
    | some src => ⟨some src, s, [.btcGet txh]⟩
    | none =>
      let a := askUserFallbackPermission env s
      if a.result then
        match env.publicGetTx txh with
        | none =>
          ⟨none, ⟨true, a.state.publicApiSteps, a.state.askCount⟩,
            .btcGet txh :: a.events ++ [.publicGet txh]⟩
        | some src =>
          ⟨some src, ⟨true, a.state.publicApiSteps + 1, a.state.askCount⟩,
            .btcGet txh :: a.events ++ [.publicGet txh]⟩
      else ⟨none, a.state, .btcGet txh :: a.events⟩

/-- The per-input body of `Manager._process_inputs` (lines 267-315),
folded over the input list.  Returns the success flag and the
accumulated total input value.  Coinbase inputs and inputs with missing
or empty txid / missing vout data are skipped (lines 268-274); a
source transaction that no tier can provide aborts (lines 298-300), as
does an out-of-range output index (lines 307-309). -/
def processInputsGo (env : MEnv) :
    List MVin → MState → ℚ → MRes (Bool × ℚ)
  | [], s, acc => ⟨(true, acc), s, []⟩
  | ⟨true, _, _⟩ :: rest, s, acc => processInputsGo env rest s acc
  | ⟨false, none, _⟩ :: rest, s, acc => processInputsGo env rest s acc
  | ⟨false, some _, none⟩ :: rest, s, acc => processInputsGo env rest s acc
  | ⟨false, some txh, some idx⟩ :: rest, s, acc =>
    if txh = "" then processInputsGo env rest s acc
    else
      match fetchInputSource env s txh with
      | ⟨none, s1, ev⟩ => ⟨(false, 0), s1, ev⟩
      | ⟨some src, s1, ev⟩ =>
        match src.vout.get? idx with
        | none => ⟨(false, 0), s1, ev⟩
        | some o =>
          let r := processInputsGo env rest s1 (acc + o.value)
          ⟨r.result, r.state, ev ++ r.events⟩

/-- Embedding of `Manager._process_inputs` (lines 257-317). -/
def processInputs (env : MEnv) (s : MState) (tx : MTx) : MRes (Bool × ℚ) :=
  processInputsGo env tx.vin s 0

/-- The block-height resolution of lines 119-128, which consults the
current tier when a truthy block hash is present (through the public
API when it is authoritative, the local node otherwise; the
`blockheight` field carried by public-API transactions needs no call). -/
def blockHeightEvents (s : MState) (raw : MTx) : List MEvent :=
  if s.usingPublicApi then
    match raw.blockhash with
    | some bh => if bh = "" then [] else [.publicHeight bh]
    | none => []
  else
    match raw.blockhash with
    | some bh => if bh = "" then [] else [.btcHeight bh]
    | none => []

/-- The tail of `store_transaction_by_hash` once a raw transaction is
in hand (lines 119-154): resolve the block height through the current
tier (lines 119-128), detect coinbase (lines 130-137), process the
inputs (lines 139-144), and store into Neo4j (line 150).  The parsing
calls of lines 146-148 are pure and emit no event. -/
def storeAfterFetch (env : MEnv) (s : MState) (h : String) (raw : MTx) :
    MRes (Option MTx) :=
  if (match raw.vin.head? with
      | some v => v.coinbase
      | none => false) then
    ⟨some raw, s, blockHeightEvents s raw ++ [.neo4jStore h]⟩
  else
    match processInputs env s raw with
    | ⟨(true, _), s1, ev⟩ => ⟨some raw, s1, blockHeightEvents s raw ++ ev ++ [.neo4jStore h]⟩
    | ⟨(false, _), s1, ev⟩ => ⟨none, s1, blockHeightEvents s raw ++ ev⟩

/-- The public-API fetch of step 2 of `store_transaction_by_hash`
(lines 109-115): reached with the public API authoritative and no raw
transaction yet; a miss aborts, a hit bumps the API step counter. -/
def storePublicFetch (env : MEnv) (s : MState) (h : String) :
    MRes (Option MTx) :=
  match env.publicGetTx h with
  | none => ⟨none, s, [.publicGet h]⟩
  | some raw =>
    let s1 : MState := ⟨s.usingPublicApi, s.publicApiSteps + 1, s.askCount⟩
    let r := storeAfterFetch env s1 h raw
    ⟨r.result, r.state, .publicGet h :: r.events⟩

/-- Embedding of `Manager.store_transaction_by_hash` (lines 85-154):
first the recovery attempt (line 94), then the local fetch when the
local node is authoritative (lines 97-106) with the interactive
fallback decision on a miss (lines 100-106), then the public fetch if
needed (lines 109-115), then the common tail. -/
def storeTransaction (env : MEnv) (s0 : MState) (h : String) :
    MRes (Option MTx) :=
  if (tryReturnToLocalNode env s0).state.usingPublicApi then
    let r := storePublicFetch env (tryReturnToLocalNode env s0).state h
    ⟨r.result, r.state, (tryReturnToLocalNode env s0).events ++ r.events⟩
  else
    match env.btcGetTx h with
    | some raw =>
      let r := storeAfterFetch env (tryReturnToLocalNode env s0).state h raw
      ⟨r.result, r.state, (tryReturnToLocalNode env s0).events ++ [.btcGet h] ++ r.events⟩
    | none =>
      let a := askUserFallbackPermission env (tryReturnToLocalNode env s0).state
      if a.result then
        let r := storePublicFetch env ⟨true, a.state.publicApiSteps, a.state.askCount⟩ h
        ⟨r.result, r.state,
          (tryReturnToLocalNode env s0).events ++ [.btcGet h] ++ a.events ++ r.events⟩
      else ⟨none, a.state, (tryReturnToLocalNode env s0).events ++ [.btcGet h] ++ a.events⟩

/-- Outcome of the spender search inside one tracing step: the user
declined the fallback and the whole trace returns (line 227), or the
search finished with the hash the walk should continue with. -/
inductive SpendOutcome
  | aborted
  | finished (next : Option String)
deriving DecidableEq, Repr

/-- The spender search for one output inside `trace_transaction_path`
(lines 197-227): through the public API when it is authoritative
(lines 198-204, counter bumped exactly when the call returned a
non-`None` spender), otherwise through local Electrs (lines 206-208)
with the interactive public fallback on a miss (lines 211-227).  The
result is `none` when the user declined the prompt — which aborts the
entire trace (line 227) — and otherwise carries the hash to continue
with (`None` for a falsy spender, lines 230-236). -/
def searchSpenderStep (env : MEnv) (s : MState) (cur : String) (i : Nat) :
    MRes (Option (Option String)) :=
  if s.usingPublicApi then
    let sp := env.publicSpender cur i
    let s1 : MState :=
      if sp.isSome then ⟨s.usingPublicApi, s.publicApiSteps + 1, s.askCount⟩ else s
    let next1 := match sp with
      | some t => if t = "" then none else some t
      | none => none
    ⟨some next1, s1, [.publicSpend cur i]⟩
  else
    match env.electrsSpender cur i with
    | some t => ⟨some (if t = "" then none else some t), s, [.electrsSpend cur i]⟩
    | none =>
      let a := askUserFallbackPermission env s
      if a.result then
        let s2 : MState := ⟨true, a.state.publicApiSteps, a.state.askCount⟩
        let sp := env.publicSpender cur i
        let s3 : MState :=
          if sp.isSome then ⟨true, s2.publicApiSteps + 1, s2.askCount⟩ else s2
        let next1 := match sp with
          | some t => if t = "" then none else some t
          | none => none
        ⟨some next1, s3, .electrsSpend cur i :: a.events ++ [.publicSpend cur i]⟩
      else ⟨none, a.state, .electrsSpend cur i :: a.events⟩

/-- The output walk of `trace_transaction_path` (lines 191-236) over
the indexed outputs: the spender search of `searchSpenderStep` fires
for every output larger than all before it, and the hash the walk
continues with is the spender of the last new maximum. -/
def spendSearchGo (env : MEnv) (cur : String) :
    List MVout → Nat → ℚ → Option String → MState → MRes SpendOutcome
  | [], _, _, next, s => ⟨.finished next, s, []⟩
  | v :: rest, i, hi, next, s =>
    if hi < v.value then
      match searchSpenderStep env s cur i with
      | ⟨none, s1, ev⟩ => ⟨.aborted, s1, ev⟩
      | ⟨some next1, s1, ev⟩ =>
        let r := spendSearchGo env cur rest (i + 1) v.value next1 s1
        ⟨r.result, r.state, ev ++ r.events⟩
    else spendSearchGo env cur rest (i + 1) hi next s

/-- Embedding of `Manager.trace_transaction_path` (lines 156-254) as a
fuel-indexed loop returning the final state and the event trace.  Each
iteration: check the `while` guard (line 165), attempt the recovery
(line 168), store the current transaction — which performs its own
recovery attempt and fallback handling (line 175) — stop on a failed
store (lines 177-179) or on the step limit (lines 181-183), then run
the spender search over the outputs, aborting everything if the user
declines the Electrs fallback, and continue with the found spender
(lines 238-254).  The `highest_value` accumulator starts at `-1.0`
(line 186) and `step` at 1 (line 163). -/
def traceGo (env : MEnv) :
    Nat → Option String → Nat → Option Nat → MState → MState × List MEvent
  | 0, _, _, _, s => (s, [])
  | fuel + 1, cur, step, maxSteps, s =>
    match cur with
    | none => (s, [])
    | some h =>
      if h = "" then (s, [])
      else if (match maxSteps with
          | none => true
          | some m => decide (step ≤ m)) then
        match storeTransaction env (tryReturnToLocalNode env s).state h with
        | ⟨none, s2, ev2⟩ => (s2, (tryReturnToLocalNode env s).events ++ ev2)
        | ⟨some raw, s2, ev2⟩ =>
          if (match maxSteps with
              | some m => !(m == 0) && step == m
              | none => false) then
            (s2, (tryReturnToLocalNode env s).events ++ ev2)
          else
            match spendSearchGo env h raw.vout 0 (-1) none s2 with
            | ⟨.aborted, s3, ev3⟩ =>
              (s3, (tryReturnToLocalNode env s).events ++ ev2 ++ ev3)
            | ⟨.finished none, s3, ev3⟩ =>
              (s3, (tryReturnToLocalNode env s).events ++ ev2 ++ ev3)
            | ⟨.finished (some nh), s3, ev3⟩ =>
              let r := traceGo env fuel (some nh) (step + 1) maxSteps s3
              (r.1, (tryReturnToLocalNode env s).events ++ ev2 ++ ev3 ++ r.2)
      else (s, [])

/-- Embedding of `trace_transaction_path(start_hash, max_steps)`. -/
def traceTransactionPath (env : MEnv) (s : MState) (start : String)
    (maxSteps : Option Nat) (fuel : Nat) : MState × List MEvent :=
  traceGo env fuel (some start) 1 maxSteps s

/-- One public `Manager` operation, as the claims quantify over
operation sequences: storing a transaction by hash or tracing a path
(the remaining menu operations — deletions, shutdown, the
peeling-chain analysis — never touch the public API connector). -/
inductive MOp
  | storeOp (h : String)
  | traceOp (h : String) (maxSteps : Option Nat) (fuel : Nat)
deriving DecidableEq, Repr

/-- Run one operation. -/
def runOp (env : MEnv) (s : MState) : MOp → MState × List MEvent
  | .storeOp h =>
    let r := storeTransaction env s h
    (r.state, r.events)
  | .traceOp h m f => traceTransactionPath env s h m f

/-- Run a sequence of operations from a given state, concatenating the
event traces. -/
def runOps (env : MEnv) (s : MState) : List MOp → MState × List MEvent
  | [] => (s, [])
  | op :: rest =>
    let r := runOp env s op
    let r2 := runOps env r.1 rest
    (r2.1, r.2 ++ r2.2)

/-- A world where the local node connection is live and healthy, both
data sources are empty, and the user always declines the fallback
prompt. -/
def probeEnv : MEnv :=
  { rpcConnection := true
    chainInfoOk := true
    btcGetTx := fun _ => none
    publicGetTx := fun _ => none
    btcBlockHeight := fun _ => 0
    publicBlockHeight := fun _ => 0
    electrsSpender := fun _ _ => none
    publicSpender := fun _ _ => none
    userAnswer := fun _ => false }

/-- A degraded state that has served exactly 5 operations through the
public API. -/
def degraded5 : MState := ⟨true, 5, 0⟩

end PiChain

namespace PiChain

/-! ## Theorems about the statistics layer (claims C6, C7, C8) -/

/-- Claim C6, counterexample.  The claim states that the Gini-based
uniformity score is 0 for the two-element maximally-unequal sequence
`[0, x]` with `x > 0`.  At the concrete input `[0, 1]` the code
computes Gini `= 1/2` and uniformity `= 50`, not 0. -/
theorem claim_C6_counterexample :
    analyzeDistributionUniformity [0, 1] = .ok (1/2) 50 ∧ ((50 : ℚ) = 0 → False) := by
  constructor
  · norm_num [analyzeDistributionUniformity, sortAsc, insertSorted, weightedIndexSum]
  · norm_num

/-- Claim C6, amended.  For every `x > 0`, the uniformity computation
on the two-element maximally-unequal sequence `[0, x]` returns Gini
`= 1/2` and uniformity score `= 50` (the formula
`(2·Σ(i+1)·vᵢ)/(n·Σv) - (n+1)/n` reaches only `1/2`, not 1, at maximal
inequality for `n = 2`, so `(1 - Gini)·100` is 50, not 0). -/
theorem claim_C6 (x : ℚ) (hx : 0 < x) :
    analyzeDistributionUniformity [0, x] = .ok (1/2) 50 := by
  have hx0 : (0:ℚ) ≤ x := le_of_lt hx
  have h2x : (2:ℚ) * x ≠ 0 := by positivity
  simp only [analyzeDistributionUniformity, sortAsc, List.foldr, insertSorted, if_pos hx0,
    List.length_cons, List.length_nil, weightedIndexSum, List.sum_cons, List.sum_nil]
  norm_num
  rw [if_neg (by simpa using h2x)]
  have h : 2 * (2 * x) / (2 * x) = 2 := by rw [mul_div_assoc, div_self h2x, mul_one]
  rw [h]
  norm_num

/-- Claim C6, witness for the amended theorem at `x = 1`. -/
theorem claim_C6_witness :
    (0 : ℚ) < 1 ∧ analyzeDistributionUniformity [0, 1] = .ok (1/2) 50 :=
  ⟨by norm_num, claim_C6 1 (by norm_num)⟩

/-- Claim C7.  The claim states that the uniformity computation returns
a sentinel, and does not raise, for every sequence of length below 2
and for every all-zero sequence.  The length check holds, but on the
all-zero sequences `[0, 0]` and `[0, 0, 0]` the division of
`fan_out_analyzer.py` line 318 has the zero denominator
`n * sum(sorted_values)` and raises an uncaught `ZeroDivisionError`
(the `divisionByZero` marker of the model), contradicting the spec. -/
theorem claim_C7 :
    analyzeDistributionUniformity [0, 0] = .divisionByZero ∧
    analyzeDistributionUniformity [0, 0, 0] = .divisionByZero ∧
    (∀ l : List ℚ, l.length < 2 → analyzeDistributionUniformity l = .insufficient) := by
  refine ⟨?_, ?_, ?_⟩
  · norm_num [analyzeDistributionUniformity, sortAsc, insertSorted, weightedIndexSum]
  · norm_num [analyzeDistributionUniformity, sortAsc, insertSorted, weightedIndexSum]
  · intro l hl
    simp [analyzeDistributionUniformity, hl]

/-- Claim C7, witness for the quantified sentinel conjunct at `[5]`. -/
theorem claim_C7_witness :
    ([(5 : ℚ)]).length < 2 ∧ analyzeDistributionUniformity [5] = .insufficient :=
  ⟨by norm_num, claim_C7.2.2 [5] (by norm_num)⟩

/-- Claim C8.  Anomaly detection over peeled-percentage sequences uses
the IQR method with NumPy percentile interpolation: every sequence of
fewer than 4 elements yields the empty report; `[10,10,10,10]` yields
zero anomalies (bounds collapse to `[10,10]`); `[10,10,10,90]` yields
exactly one anomaly at the last position (index 3), with
`Q1 = 10`, `Q3 = 30`, bounds `[-20, 60]`. -/
theorem claim_C8 :
    (∀ l : List ℚ, l.length < 4 → detectAnomalies l = ⟨[], 0, none⟩) ∧
    detectAnomalies [10, 10, 10, 10] = ⟨[], 0, some (10, 10)⟩ ∧
    detectAnomalies [10, 10, 10, 90] = ⟨[3], 1, some (-20, 60)⟩ := by
  refine ⟨fun l hl => by simp [detectAnomalies, hl], ?_, ?_⟩
  · norm_num [detectAnomalies, percentileNp, sortAsc, insertSorted, anomalousIndices,
      Int.floor_eq_iff, show Int.toNat 2 = 2 from rfl, List.get?]
  · norm_num [detectAnomalies, percentileNp, sortAsc, insertSorted, anomalousIndices,
      Int.floor_eq_iff, show Int.toNat 2 = 2 from rfl, List.get?]

/-- Claim C8, witness for the short-sequence conjunct at `[1, 2, 3]`. -/
theorem claim_C8_witness :
    ([(1 : ℚ), 2, 3]).length < 4 ∧ detectAnomalies [1, 2, 3] = ⟨[], 0, none⟩ :=
  ⟨by norm_num, claim_C8.1 [1, 2, 3] (by norm_num)⟩

/-! ## Theorems about the tracer (claims C1, C2, C5, C10) -/

/-- When `_identify_peeling_outputs` succeeds, the peeled output value
is at most the change output value, and both outputs come from the
transaction. -/
theorem identifyPeelingOutputs_sound (tx : PTx) (p c : PVout)
    (h : identifyPeelingOutputs tx = some (p, c)) :
    p.value ≤ c.value ∧ p ∈ tx.vout ∧ c ∈ tx.vout := by
  rcases htx : tx.vout with _ | ⟨a, _ | ⟨b, _ | ⟨d, l⟩⟩⟩ <;>
    simp [identifyPeelingOutputs, htx] at h
  rcases lt_or_ge b.value a.value with hba | hba
  · rw [if_pos hba] at h
    obtain ⟨rfl, rfl⟩ := h
    exact ⟨le_of_lt hba, by simp [htx]⟩
  · rw [if_neg (not_lt.mpr hba)] at h
    obtain ⟨rfl, rfl⟩ := h
    exact ⟨hba, by simp [htx]⟩

/-- The identification step fails exactly on transactions whose output
count differs from 2 (line 198: `if len(vouts) != 2`). -/
theorem identifyPeelingOutputs_none_iff (tx : PTx) :
    identifyPeelingOutputs tx = none ↔ tx.vout.length ≠ 2 := by
  rcases htx : tx.vout with _ | ⟨a, _ | ⟨b, _ | ⟨d, l⟩⟩⟩ <;>
    simp [identifyPeelingOutputs, htx]
  split <;> simp

/-- Invariant of the walk: every step in the produced chain either was
already in the accumulator or satisfies the peeled-versus-change
ordering and the percentage formula of lines 313-319. -/
theorem analyzeLoop_mem (env : PEnv) :
    ∀ (fuel : Nat) (cur : Option String) (acc : List PeelStep) (st : PeelStep),
      st ∈ (analyzeLoop env fuel cur acc).1 →
      st ∈ acc ∨
        (st.peeled_value ≤ st.change_value ∧
          st.peeled_percentage =
            if 0 < st.input_value then st.peeled_value / st.input_value * 100 else 0) := by
  intro fuel
  induction fuel with
  | zero => intro cur acc st h; exact .inl h
  | succ n ih =>
    intro cur acc st h
    match cur with
    | none => exact .inl h
    | some hs =>
      simp only [analyzeLoop] at h
      split at h
      · exact .inl h
      · split at h
        · exact .inl h
        · split at h
          · exact .inl h
          · rename_i tx htx pc peeled change hident
            rcases ih _ _ _ h with h' | h'
            · rcases List.mem_append.mp h' with h'' | h''
              · exact .inl h''
              · right
                rcases List.mem_singleton.mp h'' with rfl
                exact ⟨(identifyPeelingOutputs_sound tx _ _ hident).1, rfl⟩
            · exact .inr h'

/-- On the self-referential graph `loopEnv`, every amount of fuel is
exhausted with the walk still running and one step appended per
iteration: the Python `while current_hash:` loop never terminates. -/
theorem loopEnv_unbounded :
    ∀ (n : Nat) (acc : List PeelStep),
      analyzeLoop loopEnv n (some "a") acc = (acc ++ List.replicate n loopStep, false) := by
  intro n
  induction n with
  | zero => intro acc; simp [analyzeLoop]
  | succ n ih =>
    intro acc
    have hstep : analyzeLoop loopEnv (n + 1) (some "a") acc =
        analyzeLoop loopEnv n (some "a") (acc ++ [loopStep]) := by
      norm_num [analyzeLoop, loopEnv, loopTx, loopStep, resolveTx, identifyPeelingOutputs,
        getTotalInputValue, findNextTransactionNeo4j,
        eq_false (by decide : ¬(("a" : String) = ""))]
    rw [hstep, ih, List.replicate_succ]
    simp

/-- Claim C1, counterexample.  The claim states that the trace loop is
bounded by a 100-hop safety ceiling, terminating with at most 100 steps
even on a graph with self-referential spends.  On the concrete
self-referential graph `loopEnv`, after 101 iterations the loop has not
terminated and the chain already holds 101 steps: no ceiling exists in
`PeelingChainAnalyzer.analyze`. -/
theorem claim_C1_counterexample :
    (analyze loopEnv "a" 101).2 = false ∧ 100 < (analyze loopEnv "a" 101).1.length := by
  rw [analyze, loopEnv_unbounded 101 []]
  simp

/-- Claim C1, amended.  The trace loop of `analyze` has no hop ceiling:
on a graph where the change output of the current transaction is spent
by an already-visited transaction, the walk never terminates, appending
one step per iteration — for every `n`, after `n` iterations the loop
is still running and the chain holds exactly `n` steps (so chains
longer than 100 steps occur and termination is not guaranteed). -/
theorem claim_C1 (n : Nat) :
    (analyze loopEnv "a" n).2 = false ∧ (analyze loopEnv "a" n).1.length = n := by
  rw [analyze, loopEnv_unbounded n []]
  simp

/-- Claim C2, counterexample.  The claim states that the tracer appends
a step for every resolved transaction with at least 2 outputs and ends
the trace as not-peeling-shaped exactly when a transaction has fewer
than 2 outputs.  The concrete resolvable transaction `threeOutTx` has 3
outputs, yet `_identify_peeling_outputs` rejects it (line 198 requires
exactly 2) and the trace ends immediately with an empty chain. -/
theorem claim_C2_counterexample :
    2 ≤ threeOutTx.vout.length ∧ identifyPeelingOutputs threeOutTx = none ∧
      analyze threeOutEnv "c" 5 = ([], true) := by
  refine ⟨by norm_num [threeOutTx], by simp [identifyPeelingOutputs, threeOutTx], ?_⟩
  simp [analyze, analyzeLoop, resolveTx, threeOutEnv, threeOutTx, identifyPeelingOutputs]

/-- Claim C2, amended.  The tracer requires exactly 2 outputs: the
identification step fails (ending the trace as not-peeling-shaped)
exactly when the output count differs from 2, and when it succeeds the
peeled output is the smaller and the change output the larger of the
two outputs of the transaction. -/
theorem claim_C2 (tx : PTx) :
    (identifyPeelingOutputs tx = none ↔ tx.vout.length ≠ 2) ∧
    (∀ p c, identifyPeelingOutputs tx = some (p, c) →
      p.value ≤ c.value ∧ p ∈ tx.vout ∧ c ∈ tx.vout) :=
  ⟨identifyPeelingOutputs_none_iff tx, fun p c h => identifyPeelingOutputs_sound tx p c h⟩

/-- Claim C2, witness: on the concrete two-output transaction
`twoOutTx` (values 5 then 3), identification succeeds, picks the
value-3 output as peeled and the value-5 output as change. -/
theorem claim_C2_witness :
    identifyPeelingOutputs twoOutTx = some (⟨1, 3⟩, ⟨0, 5⟩) ∧
    (3 : ℚ) ≤ 5 ∧ (⟨1, 3⟩ : PVout) ∈ twoOutTx.vout ∧ (⟨0, 5⟩ : PVout) ∈ twoOutTx.vout := by
  have heq : identifyPeelingOutputs twoOutTx = some (⟨1, 3⟩, ⟨0, 5⟩) := by
    norm_num [identifyPeelingOutputs, twoOutTx]
  exact ⟨heq, (claim_C2 twoOutTx).2 ⟨1, 3⟩ ⟨0, 5⟩ heq⟩

/-- Claim C5, amended.  Every step of a produced chain satisfies the
percentage formula (`peeled_value / input_total · 100` when the total
input is positive, 0 otherwise); and the percentage lies in `[0, 100]`
when additionally to a positive total input and non-negative values the
peeled value does not exceed the total input value (without that extra
bound the percentage can exceed 100, see the counterexample). -/
theorem claim_C5 (env : PEnv) (start : String) (fuel : Nat) (st : PeelStep)
    (hmem : st ∈ (analyze env start fuel).1) :
    st.peeled_percentage =
      (if 0 < st.input_value then st.peeled_value / st.input_value * 100 else 0) ∧
    (0 < st.input_value → 0 ≤ st.peeled_value → st.peeled_value ≤ st.input_value →
      0 ≤ st.peeled_percentage ∧ st.peeled_percentage ≤ 100) := by
  have h := analyzeLoop_mem env fuel (some start) [] st hmem
  rcases h with h | ⟨_, hpct⟩
  · simp at h
  · refine ⟨hpct, fun hpos hnn hle => ?_⟩
    rw [hpct, if_pos hpos]
    constructor
    · positivity
    · calc st.peeled_value / st.input_value * 100
          ≤ 1 * 100 := by
            apply mul_le_mul_of_nonneg_right _ (by norm_num)
            exact (div_le_one hpos).mpr hle
        _ = 100 := by norm_num

/-- Claim C5, counterexample.  The claim asserts the percentage lies in
`[0, 100]` whenever the total input is positive and all values are
non-negative.  On `overPeelEnv` the single traced transaction has total
input 1 and outputs 5 and 10 — all non-negative — and the produced step
carries `peeled_percentage = 500`. -/
theorem claim_C5_counterexample :
    analyze overPeelEnv "b" 2 = ([⟨"b", 1, 5, 10, 500, none⟩], true) ∧
    (0 : ℚ) < 1 ∧ (0 : ℚ) ≤ 1 ∧ (0 : ℚ) ≤ 5 ∧ (0 : ℚ) ≤ 10 ∧ ¬((500 : ℚ) ≤ 100) := by
  refine ⟨?_, by norm_num, by norm_num, by norm_num, by norm_num, by norm_num⟩
  norm_num [analyze, analyzeLoop, overPeelEnv, overPeelTx, resolveTx, identifyPeelingOutputs,
    getTotalInputValue, findNextTransactionNeo4j,
    eq_false (by decide : ¬(("b" : String) = ""))]

/-- Claim C5, witness at the concrete chain of `loopEnv`, whose single
step has total input 2, peeled value 1 and percentage 50. -/
theorem claim_C5_witness :
    loopStep ∈ (analyze loopEnv "a" 1).1 ∧
    loopStep.peeled_percentage =
      (if 0 < loopStep.input_value
        then loopStep.peeled_value / loopStep.input_value * 100 else 0) ∧
    0 ≤ loopStep.peeled_percentage ∧ loopStep.peeled_percentage ≤ 100 := by
  have hmem : loopStep ∈ (analyze loopEnv "a" 1).1 := by
    rw [analyze, loopEnv_unbounded 1 []]
    simp
  have h := claim_C5 loopEnv "a" 1 loopStep hmem
  exact ⟨hmem, h.1,
    h.2 (by norm_num [loopStep]) (by norm_num [loopStep]) (by norm_num [loopStep])⟩

/-- Claim C10.  Every step appended to the chain by the tracer has its
peeled value at most its change value: the two outputs are sorted by
value ascending and the smaller becomes the peeled output, the larger
the change output. -/
theorem claim_C10 (env : PEnv) (start : String) (fuel : Nat) (st : PeelStep)
    (hmem : st ∈ (analyze env start fuel).1) :
    st.peeled_value ≤ st.change_value := by
  have h := analyzeLoop_mem env fuel (some start) [] st hmem
  rcases h with h | ⟨hle, _⟩
  · simp at h
  · exact hle

/-- Claim C10, witness at the concrete chain of `loopEnv`. -/
theorem claim_C10_witness :
    loopStep ∈ (analyze loopEnv "a" 1).1 ∧
      loopStep.peeled_value ≤ loopStep.change_value := by
  have hmem : loopStep ∈ (analyze loopEnv "a" 1).1 := by
    rw [analyze, loopEnv_unbounded 1 []]
    simp
  exact ⟨hmem, claim_C10 loopEnv "a" 1 loopStep hmem⟩

/-! ## Theorems about the Electrum lookup modes (claim C9) -/

/-- When the subscription succeeds, the reuse-mode per-outpoint body
coincides with the fresh-connection lookup. -/
theorem batchLookupOne_eq_single (env : EEnv)
    (hsub : ∀ sh, env.subscribeOk sh = true) (t : String) (v : Nat) :
    batchLookupOne env t v = get_spending_tx env t v := by
  have hq : ∀ sh, scripthashQuery env sh = env.history sh := by
    intro sh
    simp [scripthashQuery, hsub]
  unfold batchLookupOne get_spending_tx
  simp only [hq]

/-- Claim C9, counterexample.  The claim states the connection-reuse
mode and the fresh-connection mode produce identical results on the
same transaction data and scripthash history.  In `subFailEnv` — same
transaction data, same history — the subscribe call for the scripthash
fails: the fresh mode aborts inside `_scripthash_query` (line 112) and
returns `None`, while the batch mode never inspects the subscribe
result (lines 231-233) and finds the spender. -/
theorem claim_C9_counterexample :
    get_spending_tx subFailEnv "t" 0 = none ∧
    batch_get_spending_txs subFailEnv [("t", 0)] = [(("t", 0), some "u")] ∧
    (none : Option String) ≠ some "u" := by
  refine ⟨by decide, by decide, by decide⟩

/-- Claim C9, amended.  Whenever every subscription succeeds, the two
spend-lookup modes agree: each per-outpoint entry computed by
`batch_get_spending_txs` equals the value `get_spending_tx` returns for
the same outpoint.  (When a subscribe call fails while the history
fetch succeeds, the modes diverge: the fresh mode returns `None`, the
batch mode ignores the subscription outcome — see the
counterexample.) -/
theorem claim_C9 (env : EEnv) (utxos : List (String × Nat))
    (hsub : ∀ sh, env.subscribeOk sh = true) :
    batch_get_spending_txs env utxos =
      utxos.map (fun u => (u, get_spending_tx env u.1 u.2)) := by
  unfold batch_get_spending_txs
  congr 1
  funext u
  rw [batchLookupOne_eq_single env hsub]

/-- Claim C9, witness in the world `subOkEnv` where subscriptions
succeed: both modes find the spender `u`. -/
theorem claim_C9_witness :
    (∀ sh, subOkEnv.subscribeOk sh = true) ∧
    batch_get_spending_txs subOkEnv [("t", 0)] =
      [(("t", 0), get_spending_tx subOkEnv "t" 0)] ∧
    get_spending_tx subOkEnv "t" 0 = some "u" :=
  ⟨fun _ => rfl,
    (claim_C9 subOkEnv [("t", 0)] (fun _ => rfl)).trans (by simp),
    by decide⟩

/-! ## Theorems about the orchestrator (claims C3 and C4) -/

/-- When the manager is not in public-API mode, the recovery attempt is
a no-op: no probe, no state change (line 83). -/
theorem tryReturn_inactive (env : MEnv) (s : MState) (h0 : s.usingPublicApi = false) :
    tryReturnToLocalNode env s = ⟨false, s, []⟩ := by
  rw [tryReturnToLocalNode, if_neg]
  simp [h0]

/-- The recovery attempt never emits a fallback prompt: automatic
recovery to the local node asks for no confirmation. -/
theorem tryReturn_no_ask (env : MEnv) (s : MState) :
    ∀ e ∈ (tryReturnToLocalNode env s).events, ∀ b, e ≠ .ask b := by
  intro e he b
  rw [tryReturnToLocalNode] at he
  split at he <;> [skip; simp at he]
  split at he <;> simp at he <;> simp [he]

/-- When not in public-API mode and with every prompt declined, the
per-input source fetch stays local and contacts no public API. -/
theorem fetchInputSource_inv (env : MEnv) (hans : ∀ n, env.userAnswer n = false)
    (s : MState) (txh : String) (h0 : s.usingPublicApi = false) :
    (fetchInputSource env s txh).state.usingPublicApi = false ∧
    ∀ e ∈ (fetchInputSource env s txh).events, e.isPublicApiCall = false := by
  rw [fetchInputSource, if_neg (by simp [h0])]
  cases hbtc : env.btcGetTx txh with
  | some src =>
    exact ⟨h0, by intro e he; simp at he; simp [he, MEvent.isPublicApiCall]⟩
  | none =>
    rw [if_neg (by simp [askUserFallbackPermission, hans])]
    refine ⟨by simp [askUserFallbackPermission, h0], ?_⟩
    intro e he
    simp [askUserFallbackPermission] at he
    rcases he with rfl | rfl <;> rfl

/-- The input-processing loop preserves the local mode and contacts no
public API when every prompt is declined. -/
theorem processInputsGo_inv (env : MEnv) (hans : ∀ n, env.userAnswer n = false) :
    ∀ (vins : List MVin) (s : MState) (acc : ℚ), s.usingPublicApi = false →
      (processInputsGo env vins s acc).state.usingPublicApi = false ∧
      ∀ e ∈ (processInputsGo env vins s acc).events, e.isPublicApiCall = false := by
  intro vins
  induction vins with
  | nil => intro s acc h0; simp [processInputsGo, h0]
  | cons vin rest ih =>
    intro s acc h0
    obtain ⟨cb, vt, vv⟩ := vin
    cases cb with
    | true => rw [processInputsGo]; exact ih s acc h0
    | false =>
      rcases vt with _ | txh
      · rw [processInputsGo]; exact ih s acc h0
      · rcases vv with _ | idx
        · rw [processInputsGo]; exact ih s acc h0
        · rw [processInputsGo]
          by_cases hte : txh = ""
          · rw [if_pos hte]; exact ih s acc h0
          · rw [if_neg hte]
            have hf := fetchInputSource_inv env hans s txh h0
            rcases hres : fetchInputSource env s txh with ⟨fres, s1, ev⟩
            rw [hres] at hf
            simp only at hf
            cases fres with
            | none => exact ⟨hf.1, hf.2⟩
            | some src =>
              dsimp only
              cases hg : src.vout.get? idx with
              | none => exact ⟨hf.1, hf.2⟩
              | some o =>
                have hr := ih s1 (acc + o.value) hf.1
                refine ⟨hr.1, ?_⟩
                intro e he
                simp only [List.mem_append] at he
                rcases he with he | he
                · exact hf.2 e he
                · exact hr.2 e he

/-- The per-output spender search preserves the local mode and contacts
no public API when every prompt is declined. -/
theorem searchSpenderStep_inv (env : MEnv) (hans : ∀ n, env.userAnswer n = false)
    (s : MState) (cur : String) (i : Nat) (h0 : s.usingPublicApi = false) :
    (searchSpenderStep env s cur i).state.usingPublicApi = false ∧
    ∀ e ∈ (searchSpenderStep env s cur i).events, e.isPublicApiCall = false := by
  rw [searchSpenderStep, if_neg (by simp [h0])]
  cases hel : env.electrsSpender cur i with
  | some t =>
    exact ⟨h0, by intro e he; simp at he; simp [he, MEvent.isPublicApiCall]⟩
  | none =>
    rw [if_neg (by simp [askUserFallbackPermission, hans])]
    refine ⟨by simp [askUserFallbackPermission, h0], ?_⟩
    intro e he
    simp [askUserFallbackPermission] at he
    rcases he with rfl | rfl <;> rfl

/-- The output walk preserves the local mode and contacts no public
API when every prompt is declined. -/
theorem spendSearchGo_inv (env : MEnv) (hans : ∀ n, env.userAnswer n = false) (cur : String) :
    ∀ (vs : List MVout) (i : Nat) (hi : ℚ) (next : Option String) (s : MState),
      s.usingPublicApi = false →
      (spendSearchGo env cur vs i hi next s).state.usingPublicApi = false ∧
      ∀ e ∈ (spendSearchGo env cur vs i hi next s).events, e.isPublicApiCall = false := by
  intro vs
  induction vs with
  | nil => intro i hi next s h0; simp [spendSearchGo, h0]
  | cons v rest ih =>
    intro i hi next s h0
    rw [spendSearchGo]
    by_cases hv : hi < v.value
    · rw [if_pos hv]
      have hf := searchSpenderStep_inv env hans s cur i h0
      rcases hres : searchSpenderStep env s cur i with ⟨fres, s1, ev⟩
      rw [hres] at hf
      simp only at hf
      cases fres with
      | none => exact ⟨hf.1, hf.2⟩
      | some next1 =>
        dsimp only
        have hr := ih (i + 1) v.value next1 s1 hf.1
        refine ⟨hr.1, ?_⟩
        intro e he
        simp only [List.mem_append] at he
        rcases he with he | he
        · exact hf.2 e he
        · exact hr.2 e he
    · rw [if_neg hv]
      exact ih (i + 1) hi next s h0

/-- The block-height events in local mode only hit the local node. -/
theorem blockHeightEvents_inv (s : MState) (raw : MTx) (h0 : s.usingPublicApi = false) :
    ∀ e ∈ blockHeightEvents s raw, e.isPublicApiCall = false := by
  rw [blockHeightEvents, if_neg (by simp [h0])]
  cases raw.blockhash with
  | none => simp
  | some bh =>
    intro e he
    by_cases hbh : bh = "" <;> simp [hbh] at he
    simp [he, MEvent.isPublicApiCall]

/-- The store tail preserves the local mode and contacts no public API
when every prompt is declined. -/
theorem storeAfterFetch_inv (env : MEnv) (hans : ∀ n, env.userAnswer n = false)
    (s : MState) (h : String) (raw : MTx) (h0 : s.usingPublicApi = false) :
    (storeAfterFetch env s h raw).state.usingPublicApi = false ∧
    ∀ e ∈ (storeAfterFetch env s h raw).events, e.isPublicApiCall = false := by
  rw [storeAfterFetch]
  have hbh := blockHeightEvents_inv s raw h0
  split
  · refine ⟨h0, ?_⟩
    intro e he
    simp only [List.mem_append, List.mem_singleton] at he
    rcases he with he | rfl
    · exact hbh e he
    · rfl
  · have hp : (processInputs env s raw).state.usingPublicApi = false ∧
        ∀ e ∈ (processInputs env s raw).events, e.isPublicApiCall = false :=
      processInputsGo_inv env hans raw.vin s 0 h0
    rcases hres : processInputs env s raw with ⟨⟨ok, total⟩, s1, ev⟩
    rw [hres] at hp
    simp only at hp
    cases ok with
    | true =>
      dsimp only
      refine ⟨hp.1, ?_⟩
      intro e he
      simp only [List.mem_append, List.mem_singleton] at he
      rcases he with (he | he) | rfl
      · exact hbh e he
      · exact hp.2 e he
      · rfl
    | false =>
      dsimp only
      refine ⟨hp.1, ?_⟩
      intro e he
      simp only [List.mem_append] at he
      rcases he with he | he
      · exact hbh e he
      · exact hp.2 e he

/-- `store_transaction_by_hash` preserves the local mode and contacts
no public API when every prompt is declined. -/
theorem storeTransaction_inv (env : MEnv) (hans : ∀ n, env.userAnswer n = false)
    (s0 : MState) (h : String) (h0 : s0.usingPublicApi = false) :
    (storeTransaction env s0 h).state.usingPublicApi = false ∧
    ∀ e ∈ (storeTransaction env s0 h).events, e.isPublicApiCall = false := by
  rw [storeTransaction, tryReturn_inactive env s0 h0]
  rw [if_neg (by simp [h0])]
  cases hb : env.btcGetTx h with
  | some raw =>
    dsimp only
    have hsa := storeAfterFetch_inv env hans s0 h raw h0
    refine ⟨hsa.1, ?_⟩
    intro e he
    simp only [List.nil_append, List.append_assoc, List.singleton_append,
      List.mem_cons] at he
    rcases he with rfl | he
    · rfl
    · exact hsa.2 e he
  | none =>
    dsimp only
    rw [if_neg (by simp [askUserFallbackPermission, hans])]
    refine ⟨by simp [askUserFallbackPermission, h0], ?_⟩
    intro e he
    simp [askUserFallbackPermission] at he
    rcases he with rfl | rfl <;> rfl

/-- `trace_transaction_path` preserves the local mode and contacts no
public API when every prompt is declined. -/
theorem traceGo_inv (env : MEnv) (hans : ∀ n, env.userAnswer n = false) :
    ∀ (fuel : Nat) (cur : Option String) (step : Nat) (maxSteps : Option Nat) (s : MState),
      s.usingPublicApi = false →
      (traceGo env fuel cur step maxSteps s).1.usingPublicApi = false ∧
      ∀ e ∈ (traceGo env fuel cur step maxSteps s).2, e.isPublicApiCall = false := by
  intro fuel
  induction fuel with
  | zero => intro cur step maxSteps s h0; simp [traceGo, h0]
  | succ n ih =>
    intro cur step maxSteps s h0
    match cur with
    | none => simp only [traceGo]; exact ⟨h0, by simp⟩
    | some hh =>
      simp only [traceGo]
      by_cases hhe : hh = ""
      · rw [if_pos hhe]; exact ⟨h0, by simp⟩
      · rw [if_neg hhe]
        split
        · rw [tryReturn_inactive env s h0]
          dsimp only
          have hst := storeTransaction_inv env hans s hh h0
          rcases hres : storeTransaction env s hh with ⟨sres, s2, ev2⟩
          rw [hres] at hst
          simp only at hst
          cases sres with
          | none =>
            dsimp only
            refine ⟨hst.1, ?_⟩
            intro e he
            simp only [List.nil_append] at he
            exact hst.2 e he
          | some raw =>
            dsimp only
            split
            · refine ⟨hst.1, ?_⟩
              intro e he
              simp only [List.nil_append] at he
              exact hst.2 e he
            · have hss := spendSearchGo_inv env hans hh raw.vout 0 (-1) none s2 hst.1
              rcases hres2 : spendSearchGo env hh raw.vout 0 (-1) none s2 with ⟨ssres, s3, ev3⟩
              rw [hres2] at hss
              simp only at hss
              cases ssres with
              | aborted =>
                dsimp only
                refine ⟨hss.1, ?_⟩
                intro e he
                simp only [List.nil_append, List.mem_append] at he
                rcases he with he | he
                · exact hst.2 e he
                · exact hss.2 e he
              | finished nxt =>
                cases nxt with
                | none =>
                  dsimp only
                  refine ⟨hss.1, ?_⟩
                  intro e he
                  simp only [List.nil_append, List.mem_append] at he
                  rcases he with he | he
                  · exact hst.2 e he
                  · exact hss.2 e he
                | some nh =>
                  dsimp only
                  have hr := ih (some nh) (step + 1) maxSteps s3 hss.1
                  refine ⟨hr.1, ?_⟩
                  intro e he
                  simp only [List.nil_append, List.mem_append] at he
                  rcases he with (he | he) | he
                  · exact hst.2 e he
                  · exact hss.2 e he
                  · exact hr.2 e he
        · exact ⟨h0, by simp⟩

/-- Running any sequence of operations from a non-degraded state, with
every prompt declined, stays local and contacts no public API. -/
theorem runOps_inv (env : MEnv) (hans : ∀ n, env.userAnswer n = false) :
    ∀ (ops : List MOp) (s : MState), s.usingPublicApi = false →
      (runOps env s ops).1.usingPublicApi = false ∧
      ∀ e ∈ (runOps env s ops).2, e.isPublicApiCall = false := by
  intro ops
  induction ops with
  | nil => intro s h0; simp [runOps, h0]
  | cons op rest ih =>
    intro s h0
    rw [runOps]
    have hop : (runOp env s op).1.usingPublicApi = false ∧
        ∀ e ∈ (runOp env s op).2, e.isPublicApiCall = false := by
      cases op with
      | storeOp h =>
        have := storeTransaction_inv env hans s h h0
        exact ⟨this.1, this.2⟩
      | traceOp h m f =>
        exact traceGo_inv env hans f (some h) 1 m s h0
    have hrest := ih (runOp env s op).1 hop.1
    refine ⟨hrest.1, ?_⟩
    intro e he
    simp only [List.mem_append] at he
    rcases he with he | he
    · exact hop.2 e he
    · exact hrest.2 e he

/-- In the recovery window, the probe attempt is the single event of
`_try_return_to_local_node`, the counter is reset, and the manager goes
back to local exactly when the connection is live and the
`getblockchaininfo` probe succeeds. -/
theorem tryReturn_probe_events (env : MEnv) (s : MState)
    (hpub : s.usingPublicApi = true) (hsteps : 5 ≤ s.publicApiSteps) :
    (tryReturnToLocalNode env s).events =
      [.probe (env.rpcConnection && env.chainInfoOk)] ∧
    (tryReturnToLocalNode env s).state.publicApiSteps = 0 ∧
    ((tryReturnToLocalNode env s).state.usingPublicApi = false ↔
      (env.rpcConnection = true ∧ env.chainInfoOk = true)) := by
  cases hx : env.rpcConnection <;> cases hy : env.chainInfoOk <;>
    simp [tryReturnToLocalNode, hpub, hsteps, hx, hy]

/-- Every event trace of `store_transaction_by_hash` begins with the
events of the recovery attempt performed on entry (line 94). -/
theorem storeTransaction_events_shape (env : MEnv) (s : MState) (h : String) :
    ∃ rest, (storeTransaction env s h).events =
      (tryReturnToLocalNode env s).events ++ rest := by
  rw [storeTransaction]
  split
  · exact ⟨_, rfl⟩
  · split
    · rename_i src heq
      exact ⟨[MEvent.btcGet h] ++
        (storeAfterFetch env (tryReturnToLocalNode env s).state h src).events,
        by simp [List.append_assoc]⟩
    · dsimp only
      split
      · exact ⟨[MEvent.btcGet h] ++
          (askUserFallbackPermission env (tryReturnToLocalNode env s).state).events ++
          (storePublicFetch env
            ⟨true,
              (askUserFallbackPermission env
                (tryReturnToLocalNode env s).state).state.publicApiSteps,
              (askUserFallbackPermission env
                (tryReturnToLocalNode env s).state).state.askCount⟩ h).events,
          by simp [List.append_assoc]⟩
      · exact ⟨[MEvent.btcGet h] ++
          (askUserFallbackPermission env (tryReturnToLocalNode env s).state).events,
          by simp [List.append_assoc]⟩

/-- Every event trace of a tracing step begins with the events of the
recovery attempt performed at the top of the iteration (line 168). -/
theorem traceGo_events_shape (env : MEnv) (f : Nat) (h : String) (step : Nat)
    (s : MState) (hne : ¬h = "") :
    ∃ rest, (traceGo env (f + 1) (some h) step none s).2 =
      (tryReturnToLocalNode env s).events ++ rest := by
  simp only [traceGo]
  rw [if_neg hne]
  rcases storeTransaction env (tryReturnToLocalNode env s).state h with ⟨_ | raw, s2, ev2⟩
  · exact ⟨_, rfl⟩
  · dsimp only
    rcases spendSearchGo env h raw.vout 0 (-1) none s2 with ⟨sres, s3, ev3⟩
    cases sres with
    | aborted => exact ⟨ev2 ++ ev3, by simp [List.append_assoc]⟩
    | finished nxt =>
      cases nxt with
      | none => exact ⟨ev2 ++ ev3, by simp [List.append_assoc]⟩
      | some nh =>
        exact ⟨ev2 ++ ev3 ++ (traceGo env f (some nh) (step + 1) none s3).2,
          by simp [List.append_assoc]⟩

/-- Claim C3.  When the orchestrator is degraded and the counter has
reached 5, the next operation — a store or a tracing step — emits the
Primary health probe as its very first event; the probe attempt resets
the counter to 0 whatever its outcome; and the authoritative source
returns to the local node exactly when the probe succeeds (live
connection and successful `getblockchaininfo`). -/
theorem claim_C3 (env : MEnv) (s : MState) (h : String) (f : Nat)
    (hpub : s.usingPublicApi = true) (hsteps : 5 ≤ s.publicApiSteps) (hne : ¬h = "") :
    (tryReturnToLocalNode env s).state.publicApiSteps = 0 ∧
    ((tryReturnToLocalNode env s).state.usingPublicApi = false ↔
      (env.rpcConnection = true ∧ env.chainInfoOk = true)) ∧
    (storeTransaction env s h).events.head? =
      some (.probe (env.rpcConnection && env.chainInfoOk)) ∧
    (traceGo env (f + 1) (some h) 1 none s).2.head? =
      some (.probe (env.rpcConnection && env.chainInfoOk)) := by
  obtain ⟨hev, hsteps0, hiff⟩ := tryReturn_probe_events env s hpub hsteps
  refine ⟨hsteps0, hiff, ?_, ?_⟩
  · obtain ⟨rest, hr⟩ := storeTransaction_events_shape env s h
    rw [hr, hev]
    simp
  · obtain ⟨rest, hr⟩ := traceGo_events_shape env f h 1 s hne
    rw [hr, hev]
    simp

/-- Claim C3, witness in the degraded state with counter 5 against a
healthy local node: the probe fires first and succeeds. -/
theorem claim_C3_witness :
    degraded5.usingPublicApi = true ∧ 5 ≤ degraded5.publicApiSteps ∧ ¬("x" : String) = "" ∧
    (tryReturnToLocalNode probeEnv degraded5).state.publicApiSteps = 0 ∧
    ((tryReturnToLocalNode probeEnv degraded5).state.usingPublicApi = false ↔
      (probeEnv.rpcConnection = true ∧ probeEnv.chainInfoOk = true)) ∧
    (storeTransaction probeEnv degraded5 "x").events.head? =
      some (.probe (probeEnv.rpcConnection && probeEnv.chainInfoOk)) ∧
    (traceGo probeEnv 1 (some "x") 1 none degraded5).2.head? =
      some (.probe (probeEnv.rpcConnection && probeEnv.chainInfoOk)) := by
  have h := claim_C3 probeEnv degraded5 "x" 0 (by decide) (by decide) (by decide)
  exact ⟨by decide, by decide, by decide, h.1, h.2.1, h.2.2.1, h.2.2.2⟩

/-- Claim C4.  Starting from the initial state (local node
authoritative), if the authorization prompt never returns yes, then no
operation sequence ever produces a public-API call and the manager
never enters public-API mode; and the automatic recovery attempt never
emits a prompt (recovery needs no confirmation). -/
theorem claim_C4 (env : MEnv) (ops : List MOp)
    (hans : ∀ n, env.userAnswer n = false) :
    (runOps env initMState ops).1.usingPublicApi = false ∧
    (∀ e ∈ (runOps env initMState ops).2, e.isPublicApiCall = false) ∧
    (∀ (env2 : MEnv) (s : MState), ∀ e ∈ (tryReturnToLocalNode env2 s).events,
      ∀ b, e ≠ .ask b) :=
  ⟨(runOps_inv env hans ops initMState rfl).1,
   (runOps_inv env hans ops initMState rfl).2,
   fun env2 s => tryReturn_no_ask env2 s⟩

/-- Claim C4, witness: one store operation against a world whose user
always declines; only the local fetch and the prompt happen. -/
theorem claim_C4_witness :
    (runOps probeEnv initMState [.storeOp "x"]).1.usingPublicApi = false ∧
    (runOps probeEnv initMState [.storeOp "x"]).2 = [.btcGet "x", .ask false] ∧
    MEvent.isPublicApiCall (.btcGet "x") = false ∧
    MEvent.isPublicApiCall (.ask false) = false :=
  ⟨(claim_C4 probeEnv [.storeOp "x"] (fun _ => rfl)).1, by decide, rfl, rfl⟩

end PiChain
